import Mathlib

/-
Verification of the metacommand parameter parser of the usql repository
(package metacmd: Option.ParseParams and Params.GetOptional).

Modelling conventions:
- A Go string is modelled as a list of characters (`GoStr`). The code only
  compares single bytes against the ASCII characters left paren, right
  paren, equals and dash, for which byte and rune views agree.
- A Go `map[string]string` is modelled as an association list with unique
  keys; `mapInsert` overwrites the value of an existing key in place and
  appends a fresh key at the end, so duplicate writes are last-write-wins,
  exactly as for a Go map.
- The only error value `ParseParams` can return is the named error
  `text.ErrInvalidFormatOption`, modelled by the one-constructor type
  `TextErr`.
-/

namespace Metacmd

/-- A Go string, modelled as a list of characters. -/
abbrev GoStr := List Char

/-- Convert a Lean string literal to a `GoStr`. -/
def gstr (s : String) : GoStr := s.toList

/-- A Go `map[string]string`, modelled as an association list with unique keys. -/
abbrev GoMap := List (GoStr × GoStr)

/-- Go map assignment `m[k] = v`: overwrite the entry for `k` when present,
otherwise append a fresh entry. -/
def mapInsert : GoMap → GoStr → GoStr → GoMap
  | [], k, v => [(k, v)]
  | p :: m, k, v => if p.1 = k then (k, v) :: m else p :: mapInsert m k v

/-- Go map read `m[k]`, as an optional value. -/
def mapLookup : GoMap → GoStr → Option GoStr
  | [], _ => none
  | p :: m, k => if p.1 = k then some p.2 else mapLookup m k

/-- The keys of a map, in storage order. -/
def mapKeys (m : GoMap) : List GoStr := m.map Prod.fst

/-- Uncurried `mapInsert`, for folding a list of pairs into a map. -/
def insKV (m : GoMap) (kv : GoStr × GoStr) : GoMap := mapInsert m kv.1 kv.2

/-- Go `strings.SplitN(s, "=", 2)`: split at the first occurrence of the
equals character; `none` models the length-one result when `s` has no
equals character. -/
def splitEq : GoStr → Option (GoStr × GoStr)
  | [] => none
  | c :: s =>
    if c = '=' then some ([], s)
    else (splitEq s).map (fun lr => (c :: lr.1, lr.2))

/-- Go `strings.TrimLeft(s, "(")`: drop every leading left paren. -/
def trimLeftParen (s : GoStr) : GoStr := s.dropWhile (fun c => c = '(')

/-- Go `strings.TrimRight(s, ")")`: drop every trailing right paren. -/
def trimRightParen (s : GoStr) : GoStr :=
  (s.reverse.dropWhile (fun c => c = ')')).reverse

/-- Go `strings.Join(xs, " ")`. -/
def joinSpace (xs : List GoStr) : GoStr := List.intercalate [' '] xs

/-- The error domain of `ParseParams`: the code returns only the named
error `text.ErrInvalidFormatOption`. -/
inductive TextErr where
  | invalidFormatOption
deriving DecidableEq

/-- The `formatOptions = true` assignment on seeing a token whose first
character is a left paren (a no-op when already inside a list). -/
def enterFO (fo : Bool) (p : GoStr) : Bool := fo || decide (p.head? = some '(')

/-- The `formatOptions = false` assignment on a list-mode token whose last
character is a right paren. -/
def exitFO (fo : Bool) (p : GoStr) : Bool :=
  if fo ∧ p.getLast? = some ')' then false else fo

/-- The scanning loop of `Option.ParseParams`, one branch per line of the
Go source: skip empty tokens; outside a list a token beginning with a left
paren enters list mode and any other token sends the joined tail to the
default key and stops; a processed token is split at its first equals
character (no equals: `text.ErrInvalidFormatOption`), its trimmed pair is
stored, and a trailing right paren leaves list mode. -/
def parseParamsLoop (dk : GoStr) : List GoStr → Bool → GoMap → GoMap × Option TextErr
  | [], _, m => (m, none)
  | p :: rest, fo, m =>
    if p = [] then parseParamsLoop dk rest fo m
    else if fo = false ∧ p.head? ≠ some '(' then
      (mapInsert m dk (joinSpace (p :: rest)), none)
    else
      match splitEq p with
      | none => (m, some TextErr.invalidFormatOption)
      | some lr =>
        parseParamsLoop dk rest (exitFO (enterFO fo p) p)
          (mapInsert m (trimLeftParen lr.1) (trimRightParen lr.2))

/-- Instrumentation record for one `ParseParams` call: the tokens handled
by the list-mode split path (in order, including an offending token), the
key/value pairs that path stored (in order), and the value assigned to the
default key when the free-form branch ran. -/
structure ScanTrace where
  listTokens : List GoStr
  listPairs : List (GoStr × GoStr)
  defaultSet : Option GoStr
deriving DecidableEq

/-- Result of the instrumented scanning loop. -/
structure ScanResult where
  params : GoMap
  err : Option TextErr
  trace : ScanTrace
deriving DecidableEq

/-- Record one list-mode token `p` and its stored pair `kv` in front of the
trace of a `ScanResult`. -/
def consTrace (p : GoStr) (kv : GoStr × GoStr) (r : ScanResult) : ScanResult :=
  ⟨r.params, r.err, ⟨p :: r.trace.listTokens, kv :: r.trace.listPairs, r.trace.defaultSet⟩⟩

/-- The scanning loop of `Option.ParseParams`, instrumented with a
`ScanTrace`; `parseParamsLoopT_erase` proves that the map and error
components coincide with `parseParamsLoop`. -/
def parseParamsLoopT (dk : GoStr) : List GoStr → Bool → GoMap → ScanResult
  | [], _, m => ⟨m, none, ⟨[], [], none⟩⟩
  | p :: rest, fo, m =>
    if p = [] then parseParamsLoopT dk rest fo m
    else if fo = false ∧ p.head? ≠ some '(' then
      ⟨mapInsert m dk (joinSpace (p :: rest)), none, ⟨[], [], some (joinSpace (p :: rest))⟩⟩
    else
      match splitEq p with
      | none => ⟨m, some TextErr.invalidFormatOption, ⟨[p], [], none⟩⟩
      | some lr =>
        consTrace p (trimLeftParen lr.1, trimRightParen lr.2)
          (parseParamsLoopT dk rest (exitFO (enterFO fo p) p)
            (mapInsert m (trimLeftParen lr.1) (trimRightParen lr.2)))

/-- The `ExecType` enumeration of the metacmd package. -/
inductive ExecType where
  | execNone
  | execOnly
  | execPipe
  | execSet
  | execExec
  | execCrosstab
  | execWatch
deriving DecidableEq

/-- The metacmd `Option` structure: `Quit`, `Exec`, `Params` (a possibly
nil map), `Crosstab`, and `Watch` (a `time.Duration`, an `int64`). -/
structure MOption where
  Quit : Bool
  Exec : ExecType
  Params : Option GoMap
  Crosstab : List GoStr
  Watch : Int
deriving DecidableEq

/-- `Option.ParseParams`: allocate a fresh empty map when `Params` is nil,
run the scanning loop, store the resulting map back into `Params`, and
return the loop error. Mirrors the Go method, whose only mutation is to
`opt.Params`. -/
def ParseParams (opt : MOption) (params : List GoStr) (defaultKey : GoStr) :
    MOption × Option TextErr :=
  let r := parseParamsLoop defaultKey params false (opt.Params.getD [])
  (⟨opt.Quit, opt.Exec, some r.1, opt.Crosstab, opt.Watch⟩, r.2)

/-- `Params.GetOptional`: takes the outcome of the decoding `Get` call (a
value `v` and an optional error, the decoder being an external
collaborator). On a decoder error it returns `(false, "", err)`;
otherwise, when `v` is nonempty and begins with a dash it returns `true`
and `v` without its first character, else `false` and `v` unchanged. -/
def GetOptional (ε : Type) (v : GoStr) (err : Option ε) : Bool × GoStr × Option ε :=
  match err with
  | some e => (false, [], some e)
  | none =>
    if 0 < v.length ∧ v.head? = some '-' then (true, v.tail, none)
    else (false, v, none)

@[simp]
theorem consTrace_params (p : GoStr) (kv : GoStr × GoStr) (r : ScanResult) :
    (consTrace p kv r).params = r.params := rfl

@[simp]
theorem consTrace_err (p : GoStr) (kv : GoStr × GoStr) (r : ScanResult) :
    (consTrace p kv r).err = r.err := rfl

@[simp]
theorem consTrace_trace (p : GoStr) (kv : GoStr × GoStr) (r : ScanResult) :
    (consTrace p kv r).trace
      = ⟨p :: r.trace.listTokens, kv :: r.trace.listPairs, r.trace.defaultSet⟩ := rfl

theorem parseParamsLoop_nil (dk : GoStr) (fo : Bool) (m : GoMap) :
    parseParamsLoop dk [] fo m = (m, none) := rfl

theorem parseParamsLoop_cons (dk p : GoStr) (rest : List GoStr) (fo : Bool) (m : GoMap) :
    parseParamsLoop dk (p :: rest) fo m =
      if p = [] then parseParamsLoop dk rest fo m
      else if fo = false ∧ p.head? ≠ some '(' then
        (mapInsert m dk (joinSpace (p :: rest)), none)
      else
        match splitEq p with
        | none => (m, some TextErr.invalidFormatOption)
        | some lr =>
          parseParamsLoop dk rest (exitFO (enterFO fo p) p)
            (mapInsert m (trimLeftParen lr.1) (trimRightParen lr.2)) := rfl

theorem parseParamsLoopT_nil (dk : GoStr) (fo : Bool) (m : GoMap) :
    parseParamsLoopT dk [] fo m = ⟨m, none, ⟨[], [], none⟩⟩ := rfl

theorem parseParamsLoopT_cons (dk p : GoStr) (rest : List GoStr) (fo : Bool) (m : GoMap) :
    parseParamsLoopT dk (p :: rest) fo m =
      if p = [] then parseParamsLoopT dk rest fo m
      else if fo = false ∧ p.head? ≠ some '(' then
        ⟨mapInsert m dk (joinSpace (p :: rest)), none, ⟨[], [], some (joinSpace (p :: rest))⟩⟩
      else
        match splitEq p with
        | none => ⟨m, some TextErr.invalidFormatOption, ⟨[p], [], none⟩⟩
        | some lr =>
          consTrace p (trimLeftParen lr.1, trimRightParen lr.2)
            (parseParamsLoopT dk rest (exitFO (enterFO fo p) p)
              (mapInsert m (trimLeftParen lr.1) (trimRightParen lr.2))) := rfl

@[simp]
theorem mapInsert_nil (k v : GoStr) : mapInsert [] k v = [(k, v)] := rfl

@[simp]
theorem mapInsert_cons (p : GoStr × GoStr) (m : GoMap) (k v : GoStr) :
    mapInsert (p :: m) k v
      = if p.1 = k then (k, v) :: m else p :: mapInsert m k v := rfl

@[simp]
theorem mapLookup_nil (k : GoStr) : mapLookup [] k = none := rfl

@[simp]
theorem mapLookup_cons (p : GoStr × GoStr) (m : GoMap) (k : GoStr) :
    mapLookup (p :: m) k = if p.1 = k then some p.2 else mapLookup m k := rfl

@[simp]
theorem mapKeys_nil : mapKeys [] = [] := rfl

@[simp]
theorem mapKeys_cons (p : GoStr × GoStr) (m : GoMap) :
    mapKeys (p :: m) = p.1 :: mapKeys m := rfl

theorem mapLookup_mapInsert_self (m : GoMap) (k v : GoStr) :
    mapLookup (mapInsert m k v) k = some v := by
  induction m with
  | nil => simp
  | cons p m ih =>
    by_cases hp : p.1 = k
    · simp [hp]
    · simp [hp, ih]

theorem mapLookup_mapInsert_ne (m : GoMap) (k v k' : GoStr) (h : k' ≠ k) :
    mapLookup (mapInsert m k v) k' = mapLookup m k' := by
  have h' : ¬ k = k' := fun he => h he.symm
  induction m with
  | nil => simp [h']
  | cons p m ih =>
    by_cases hp : p.1 = k
    · simp [hp, h']
    · by_cases hp' : p.1 = k' <;> simp [hp, hp', h, ih]

theorem mapKeys_mapInsert (m : GoMap) (k v : GoStr) :
    mapKeys (mapInsert m k v)
      = if k ∈ mapKeys m then mapKeys m else mapKeys m ++ [k] := by
  induction m with
  | nil => simp
  | cons p m ih =>
    by_cases hp : p.1 = k
    · subst hp
      simp
    · have hk : ¬ k = p.1 := fun he => hp he.symm
      by_cases hm : k ∈ mapKeys m <;> simp [hp, ih, hm, hk, List.mem_cons]

theorem nodup_mapKeys_mapInsert (m : GoMap) (k v : GoStr) (h : (mapKeys m).Nodup) :
    (mapKeys (mapInsert m k v)).Nodup := by
  rw [mapKeys_mapInsert]
  by_cases hm : k ∈ mapKeys m
  · rwa [if_pos hm]
  · rw [if_neg hm, List.nodup_append]
    exact ⟨h, List.nodup_singleton k,
      fun x hx hx1 => hm ((List.mem_singleton.mp hx1) ▸ hx)⟩

theorem mapLookup_foldl_insKV_not_mem (l : List (GoStr × GoStr)) (m : GoMap) (k : GoStr)
    (h : k ∉ l.map Prod.fst) : mapLookup (l.foldl insKV m) k = mapLookup m k := by
  induction l generalizing m with
  | nil => rfl
  | cons kv l ih =>
    simp only [List.map_cons, List.mem_cons, not_or] at h
    rw [List.foldl_cons, ih (insKV m kv) h.2]
    exact mapLookup_mapInsert_ne m kv.1 kv.2 k h.1

theorem mapLookup_foldl_insKV_last (l1 l2 : List (GoStr × GoStr)) (m : GoMap) (k v : GoStr)
    (h : k ∉ l2.map Prod.fst) :
    mapLookup ((l1 ++ (k, v) :: l2).foldl insKV m) k = some v := by
  rw [List.foldl_append, List.foldl_cons, mapLookup_foldl_insKV_not_mem l2 _ k h]
  exact mapLookup_mapInsert_self _ k v

theorem splitEq_none_iff (s : GoStr) : splitEq s = none ↔ '=' ∉ s := by
  induction s with
  | nil => simp [splitEq]
  | cons c s ih =>
    by_cases hc : c = '='
    · simp [splitEq, hc]
    · have h2 : ¬ ('=' : Char) = c := fun he => hc he.symm
      simp [splitEq, hc, Option.map_eq_none', ih, h2]

theorem splitEq_some (s : GoStr) : ∀ lr : GoStr × GoStr, splitEq s = some lr →
    s = lr.1 ++ '=' :: lr.2 ∧ '=' ∉ lr.1 := by
  induction s with
  | nil => intro lr h; cases h
  | cons c s ih =>
    intro lr h
    by_cases hc : c = '='
    · rw [splitEq, if_pos hc] at h
      cases h
      subst hc
      exact ⟨rfl, List.not_mem_nil _⟩
    · rw [splitEq, if_neg hc, Option.map_eq_some'] at h
      obtain ⟨lr', hlr', hmap⟩ := h
      obtain ⟨hs, hnm⟩ := ih lr' hlr'
      subst hmap
      refine ⟨by rw [List.cons_append, hs], ?_⟩
      intro hmem
      rcases List.mem_cons.mp hmem with he | he
      · exact hc he.symm
      · exact hnm he

theorem splitEq_ne_nil (s : GoStr) (lr : GoStr × GoStr) (h : splitEq s = some lr) :
    s ≠ [] := by
  intro he
  rw [he] at h
  cases h

theorem parseParamsLoop_skip (dk : GoStr) (pre ps : List GoStr) (fo : Bool) (m : GoMap)
    (h : ∀ s ∈ pre, s = ([] : GoStr)) :
    parseParamsLoop dk (pre ++ ps) fo m = parseParamsLoop dk ps fo m := by
  induction pre with
  | nil => rfl
  | cons p pre ih =>
    have hp : p = [] := h p (List.mem_cons_self _ _)
    rw [List.cons_append, parseParamsLoop_cons, if_pos hp]
    exact ih (fun s hs => h s (List.mem_cons_of_mem _ hs))

theorem parseParamsLoopT_skip (dk : GoStr) (pre ps : List GoStr) (fo : Bool) (m : GoMap)
    (h : ∀ s ∈ pre, s = ([] : GoStr)) :
    parseParamsLoopT dk (pre ++ ps) fo m = parseParamsLoopT dk ps fo m := by
  induction pre with
  | nil => rfl
  | cons p pre ih =>
    have hp : p = [] := h p (List.mem_cons_self _ _)
    rw [List.cons_append, parseParamsLoopT_cons, if_pos hp]
    exact ih (fun s hs => h s (List.mem_cons_of_mem _ hs))

theorem parseParamsLoop_freeform (dk t : GoStr) (rest : List GoStr) (m : GoMap)
    (h1 : t ≠ []) (h2 : t.head? ≠ some '(') :
    parseParamsLoop dk (t :: rest) false m
      = (mapInsert m dk (joinSpace (t :: rest)), none) := by
  rw [parseParamsLoop_cons, if_neg h1, if_pos ⟨rfl, h2⟩]

theorem parseParamsLoopT_freeform (dk t : GoStr) (rest : List GoStr) (m : GoMap)
    (h1 : t ≠ []) (h2 : t.head? ≠ some '(') :
    parseParamsLoopT dk (t :: rest) false m
      = ⟨mapInsert m dk (joinSpace (t :: rest)), none,
         ⟨[], [], some (joinSpace (t :: rest))⟩⟩ := by
  rw [parseParamsLoopT_cons, if_neg h1, if_pos ⟨rfl, h2⟩]

theorem not_freeform_cond (fo : Bool) (t : GoStr)
    (hfo : fo = true ∨ t.head? = some '(') : ¬ (fo = false ∧ t.head? ≠ some '(') := by
  rintro ⟨hf, hh⟩
  rcases hfo with h | h
  · rw [h] at hf; cases hf
  · exact hh h

theorem enterFO_eq_true (fo : Bool) (t : GoStr)
    (hfo : fo = true ∨ t.head? = some '(') : enterFO fo t = true := by
  rcases hfo with h | h
  · simp [enterFO, h]
  · simp [enterFO, h]

theorem parseParamsLoop_list_step (dk t : GoStr) (rest : List GoStr) (fo : Bool)
    (m : GoMap) (lr : GoStr × GoStr) (hfo : fo = true ∨ t.head? = some '(')
    (hs : splitEq t = some lr) :
    parseParamsLoop dk (t :: rest) fo m
      = parseParamsLoop dk rest (exitFO true t)
          (mapInsert m (trimLeftParen lr.1) (trimRightParen lr.2)) := by
  rw [parseParamsLoop_cons, if_neg (splitEq_ne_nil t lr hs),
    if_neg (not_freeform_cond fo t hfo), hs, enterFO_eq_true fo t hfo]

theorem parseParamsLoopT_list_step (dk t : GoStr) (rest : List GoStr) (fo : Bool)
    (m : GoMap) (lr : GoStr × GoStr) (hfo : fo = true ∨ t.head? = some '(')
    (hs : splitEq t = some lr) :
    parseParamsLoopT dk (t :: rest) fo m
      = consTrace t (trimLeftParen lr.1, trimRightParen lr.2)
          (parseParamsLoopT dk rest (exitFO true t)
            (mapInsert m (trimLeftParen lr.1) (trimRightParen lr.2))) := by
  rw [parseParamsLoopT_cons, if_neg (splitEq_ne_nil t lr hs),
    if_neg (not_freeform_cond fo t hfo), hs, enterFO_eq_true fo t hfo]

theorem parseParamsLoop_err_step (dk t : GoStr) (rest : List GoStr) (fo : Bool)
    (m : GoMap) (ht : t ≠ []) (hfo : fo = true ∨ t.head? = some '(')
    (hs : splitEq t = none) :
    parseParamsLoop dk (t :: rest) fo m = (m, some TextErr.invalidFormatOption) := by
  rw [parseParamsLoop_cons, if_neg ht, if_neg (not_freeform_cond fo t hfo), hs]

theorem parseParamsLoopT_erase (dk : GoStr) (ps : List GoStr) : ∀ (fo : Bool) (m : GoMap),
    (parseParamsLoopT dk ps fo m).params = (parseParamsLoop dk ps fo m).1 ∧
    (parseParamsLoopT dk ps fo m).err = (parseParamsLoop dk ps fo m).2 := by
  induction ps with
  | nil => exact fun fo m => ⟨rfl, rfl⟩
  | cons p rest ih =>
    intro fo m
    rw [parseParamsLoop_cons, parseParamsLoopT_cons]
    by_cases hp : p = []
    · rw [if_pos hp, if_pos hp]
      exact ih fo m
    · rw [if_neg hp, if_neg hp]
      by_cases hff : fo = false ∧ p.head? ≠ some '('
      · rw [if_pos hff, if_pos hff]
        exact ⟨rfl, rfl⟩
      · rw [if_neg hff, if_neg hff]
        cases hs : splitEq p with
        | none => exact ⟨rfl, rfl⟩
        | some lr => exact ⟨(ih _ _).1, (ih _ _).2⟩

theorem parseParamsLoop_empty_cons (dk : GoStr) (rest : List GoStr) (fo : Bool)
    (m : GoMap) : parseParamsLoop dk ([] :: rest) fo m = parseParamsLoop dk rest fo m := rfl

theorem parseParamsLoopT_empty_cons (dk : GoStr) (rest : List GoStr) (fo : Bool)
    (m : GoMap) : parseParamsLoopT dk ([] :: rest) fo m = parseParamsLoopT dk rest fo m := rfl

theorem parseParamsLoopT_err_step (dk t : GoStr) (rest : List GoStr) (fo : Bool)
    (m : GoMap) (ht : t ≠ []) (hfo : fo = true ∨ t.head? = some '(')
    (hs : splitEq t = none) :
    parseParamsLoopT dk (t :: rest) fo m
      = ⟨m, some TextErr.invalidFormatOption, ⟨[t], [], none⟩⟩ := by
  rw [parseParamsLoopT_cons, if_neg ht, if_neg (not_freeform_cond fo t hfo), hs]

theorem of_not_freeform (fo : Bool) (t : GoStr)
    (h : ¬ (fo = false ∧ t.head? ≠ some '(')) : fo = true ∨ t.head? = some '(' := by
  cases fo with
  | true => exact Or.inl rfl
  | false =>
    right
    by_contra hh
    exact h ⟨rfl, hh⟩

theorem parseParamsLoop_err_append (dk : GoStr) (extra ps : List GoStr) :
    ∀ (fo : Bool) (m : GoMap), (parseParamsLoop dk ps fo m).2.isSome = true →
    parseParamsLoop dk (ps ++ extra) fo m = parseParamsLoop dk ps fo m := by
  induction ps with
  | nil =>
    intro fo m h
    rw [parseParamsLoop_nil] at h
    cases h
  | cons p rest ih =>
    intro fo m h
    rw [List.cons_append]
    by_cases hp : p = []
    · subst hp
      rw [parseParamsLoop_empty_cons] at h
      rw [parseParamsLoop_empty_cons, parseParamsLoop_empty_cons]
      exact ih fo m h
    · by_cases hff : fo = false ∧ p.head? ≠ some '('
      · obtain ⟨hf, hh⟩ := hff
        subst hf
        rw [parseParamsLoop_freeform dk p rest m hp hh] at h
        exact Bool.noConfusion h
      · have hfo : fo = true ∨ p.head? = some '(' := of_not_freeform fo p hff
        cases hs : splitEq p with
        | none =>
          rw [parseParamsLoop_err_step dk p (rest ++ extra) fo m hp hfo hs,
            parseParamsLoop_err_step dk p rest fo m hp hfo hs]
        | some lr =>
          rw [parseParamsLoop_list_step dk p rest fo m lr hfo hs] at h
          rw [parseParamsLoop_list_step dk p (rest ++ extra) fo m lr hfo hs,
            parseParamsLoop_list_step dk p rest fo m lr hfo hs]
          exact ih _ _ h

theorem parseParamsLoopT_err_foldl (dk : GoStr) (ps : List GoStr) :
    ∀ (fo : Bool) (m : GoMap), (parseParamsLoopT dk ps fo m).err.isSome = true →
    (parseParamsLoopT dk ps fo m).params
      = ((parseParamsLoopT dk ps fo m).trace.listPairs).foldl insKV m := by
  induction ps with
  | nil =>
    intro fo m h
    rw [parseParamsLoopT_nil] at h
    cases h
  | cons p rest ih =>
    intro fo m h
    by_cases hp : p = []
    · subst hp
      rw [parseParamsLoopT_empty_cons] at h
      rw [parseParamsLoopT_empty_cons]
      exact ih fo m h
    · by_cases hff : fo = false ∧ p.head? ≠ some '('
      · obtain ⟨hf, hh⟩ := hff
        subst hf
        rw [parseParamsLoopT_freeform dk p rest m hp hh] at h
        exact Bool.noConfusion h
      · have hfo : fo = true ∨ p.head? = some '(' := of_not_freeform fo p hff
        cases hs : splitEq p with
        | none =>
          rw [parseParamsLoopT_err_step dk p rest fo m hp hfo hs]
          rfl
        | some lr =>
          rw [parseParamsLoopT_list_step dk p rest fo m lr hfo hs] at h ⊢
          simp only [consTrace_params, consTrace_err, consTrace_trace] at h ⊢
          rw [List.foldl_cons]
          exact ih _ _ h

theorem parseParamsLoopT_preserve (dk k : GoStr) (hk : k ≠ dk) (ps : List GoStr) :
    ∀ (fo : Bool) (m : GoMap),
    k ∉ ((parseParamsLoopT dk ps fo m).trace.listPairs).map Prod.fst →
    mapLookup (parseParamsLoopT dk ps fo m).params k = mapLookup m k := by
  induction ps with
  | nil => exact fun fo m _ => rfl
  | cons p rest ih =>
    intro fo m h
    by_cases hp : p = []
    · subst hp
      rw [parseParamsLoopT_empty_cons] at h
      rw [parseParamsLoopT_empty_cons]
      exact ih fo m h
    · by_cases hff : fo = false ∧ p.head? ≠ some '('
      · obtain ⟨hf, hh⟩ := hff
        subst hf
        rw [parseParamsLoopT_freeform dk p rest m hp hh]
        exact mapLookup_mapInsert_ne m dk (joinSpace (p :: rest)) k hk
      · have hfo : fo = true ∨ p.head? = some '(' := of_not_freeform fo p hff
        cases hs : splitEq p with
        | none =>
          rw [parseParamsLoopT_err_step dk p rest fo m hp hfo hs]
        | some lr =>
          rw [parseParamsLoopT_list_step dk p rest fo m lr hfo hs] at h ⊢
          simp only [consTrace_params, consTrace_trace, List.map_cons, List.mem_cons,
            not_or] at h ⊢
          rw [ih _ _ h.2]
          exact mapLookup_mapInsert_ne m _ _ k h.1

theorem parseParamsLoop_nodup (dk : GoStr) (ps : List GoStr) :
    ∀ (fo : Bool) (m : GoMap), (mapKeys m).Nodup →
    (mapKeys (parseParamsLoop dk ps fo m).1).Nodup := by
  induction ps with
  | nil => exact fun fo m h => h
  | cons p rest ih =>
    intro fo m h
    by_cases hp : p = []
    · subst hp
      rw [parseParamsLoop_empty_cons]
      exact ih fo m h
    · by_cases hff : fo = false ∧ p.head? ≠ some '('
      · obtain ⟨hf, hh⟩ := hff
        subst hf
        rw [parseParamsLoop_freeform dk p rest m hp hh]
        exact nodup_mapKeys_mapInsert m dk _ h
      · have hfo : fo = true ∨ p.head? = some '(' := of_not_freeform fo p hff
        cases hs : splitEq p with
        | none =>
          rw [parseParamsLoop_err_step dk p rest fo m hp hfo hs]
          exact h
        | some lr =>
          rw [parseParamsLoop_list_step dk p rest fo m lr hfo hs]
          exact ih _ _ (nodup_mapKeys_mapInsert m _ _ h)

theorem parseParamsLoopT_defaultSet (dk : GoStr) (ps : List GoStr) :
    ∀ (fo : Bool) (m : GoMap) (v : GoStr),
    (parseParamsLoopT dk ps fo m).trace.defaultSet = some v →
    mapLookup (parseParamsLoopT dk ps fo m).params dk = some v := by
  induction ps with
  | nil =>
    intro fo m v h
    rw [parseParamsLoopT_nil] at h
    cases h
  | cons p rest ih =>
    intro fo m v h
    by_cases hp : p = []
    · subst hp
      rw [parseParamsLoopT_empty_cons] at h
      rw [parseParamsLoopT_empty_cons]
      exact ih fo m v h
    · by_cases hff : fo = false ∧ p.head? ≠ some '('
      · obtain ⟨hf, hh⟩ := hff
        subst hf
        rw [parseParamsLoopT_freeform dk p rest m hp hh] at h ⊢
        cases h
        exact mapLookup_mapInsert_self m dk _
      · have hfo : fo = true ∨ p.head? = some '(' := of_not_freeform fo p hff
        cases hs : splitEq p with
        | none =>
          rw [parseParamsLoopT_err_step dk p rest fo m hp hfo hs] at h
          cases h
        | some lr =>
          rw [parseParamsLoopT_list_step dk p rest fo m lr hfo hs] at h ⊢
          simp only [consTrace_params, consTrace_trace] at h ⊢
          exact ih _ _ v h

theorem parseParamsLoopT_err_mem (dk : GoStr) (ps : List GoStr) :
    ∀ (fo : Bool) (m : GoMap), (parseParamsLoopT dk ps fo m).err.isSome = true →
    ∃ t ∈ (parseParamsLoopT dk ps fo m).trace.listTokens, splitEq t = none := by
  induction ps with
  | nil =>
    intro fo m h
    rw [parseParamsLoopT_nil] at h
    cases h
  | cons p rest ih =>
    intro fo m h
    by_cases hp : p = []
    · subst hp
      rw [parseParamsLoopT_empty_cons] at h
      rw [parseParamsLoopT_empty_cons]
      exact ih fo m h
    · by_cases hff : fo = false ∧ p.head? ≠ some '('
      · obtain ⟨hf, hh⟩ := hff
        subst hf
        rw [parseParamsLoopT_freeform dk p rest m hp hh] at h
        exact Bool.noConfusion h
      · have hfo : fo = true ∨ p.head? = some '(' := of_not_freeform fo p hff
        cases hs : splitEq p with
        | none =>
          rw [parseParamsLoopT_err_step dk p rest fo m hp hfo hs]
          exact ⟨p, List.mem_singleton_self p, hs⟩
        | some lr =>
          rw [parseParamsLoopT_list_step dk p rest fo m lr hfo hs] at h ⊢
          simp only [consTrace_err, consTrace_trace] at h ⊢
          obtain ⟨t, ht, hts⟩ := ih _ _ h
          exact ⟨t, List.mem_cons_of_mem p ht, hts⟩

theorem parseParamsLoopT_ok_tokens (dk : GoStr) (ps : List GoStr) :
    ∀ (fo : Bool) (m : GoMap), (parseParamsLoopT dk ps fo m).err = none →
    ∀ t ∈ (parseParamsLoopT dk ps fo m).trace.listTokens, splitEq t ≠ none := by
  induction ps with
  | nil =>
    intro fo m _ t ht
    rw [parseParamsLoopT_nil] at ht
    cases ht
  | cons p rest ih =>
    intro fo m h t ht
    by_cases hp : p = []
    · subst hp
      rw [parseParamsLoopT_empty_cons] at h ht
      exact ih fo m h t ht
    · by_cases hff : fo = false ∧ p.head? ≠ some '('
      · obtain ⟨hf, hh⟩ := hff
        subst hf
        rw [parseParamsLoopT_freeform dk p rest m hp hh] at ht
        cases ht
      · have hfo : fo = true ∨ p.head? = some '(' := of_not_freeform fo p hff
        cases hs : splitEq p with
        | none =>
          rw [parseParamsLoopT_err_step dk p rest fo m hp hfo hs] at h
          cases h
        | some lr =>
          rw [parseParamsLoopT_list_step dk p rest fo m lr hfo hs] at h ht
          simp only [consTrace_err, consTrace_trace] at h ht
          rcases List.mem_cons.mp ht with he | he
          · subst he
            rw [hs]
            exact fun hn => Option.noConfusion hn
          · exact ih _ _ h t he

theorem ParseParams_eq (opt : MOption) (ps : List GoStr) (dk : GoStr) :
    ParseParams opt ps dk
      = (⟨opt.Quit, opt.Exec,
          some (parseParamsLoop dk ps false (opt.Params.getD [])).1,
          opt.Crosstab, opt.Watch⟩,
         (parseParamsLoop dk ps false (opt.Params.getD [])).2) := rfl

/-- C1: when the first non-empty token does not begin with a left paren,
ParseParams returns no error and performs no key/value splitting: the
default key receives that token and all remaining tokens joined with
single spaces, no other key is touched, and the trace shows that no
list-mode token was processed. -/
theorem c1_freeform_default (opt : MOption) (dk : GoStr) (pre : List GoStr)
    (t : GoStr) (rest : List GoStr) (hpre : ∀ s ∈ pre, s = ([] : GoStr))
    (ht : t ≠ []) (hh : t.head? ≠ some '(') :
    ParseParams opt (pre ++ t :: rest) dk
      = (⟨opt.Quit, opt.Exec,
          some (mapInsert (opt.Params.getD []) dk (joinSpace (t :: rest))),
          opt.Crosstab, opt.Watch⟩, none)
  ∧ (parseParamsLoopT dk (pre ++ t :: rest) false (opt.Params.getD [])).trace
      = ⟨[], [], some (joinSpace (t :: rest))⟩ := by
  have hl : parseParamsLoop dk (pre ++ t :: rest) false (opt.Params.getD [])
      = (mapInsert (opt.Params.getD []) dk (joinSpace (t :: rest)), none) := by
    rw [parseParamsLoop_skip dk pre (t :: rest) false _ hpre]
    exact parseParamsLoop_freeform dk t rest _ ht hh
  constructor
  · rw [ParseParams_eq, hl]
  · rw [parseParamsLoopT_skip dk pre (t :: rest) false _ hpre,
      parseParamsLoopT_freeform dk t rest _ ht hh]

theorem c1_freeform_default_witness :
    ParseParams ⟨false, ExecType.execNone, none, [], 0⟩
        ([] :: [gstr "foo=bar", gstr "baz"]) (gstr "d")
      = (⟨false, ExecType.execNone, some [(gstr "d", gstr "foo=bar baz")], [], 0⟩, none)
  ∧ (parseParamsLoopT (gstr "d") ([] :: [gstr "foo=bar", gstr "baz"]) false []).trace
      = ⟨[], [], some (gstr "foo=bar baz")⟩ :=
  c1_freeform_default ⟨false, ExecType.execNone, none, [], 0⟩ (gstr "d") [[]]
    (gstr "foo=bar") [gstr "baz"] (by decide) (by decide) (by decide)

/-- C2 counterexample: the solitary token "()" does not succeed and does
not produce a degenerate empty-string key: ParseParams returns the
InvalidFormatOption error and stores nothing. -/
theorem c2_solitary_parens_counterexample :
    (ParseParams ⟨false, ExecType.execNone, none, [], 0⟩ [gstr "()"] (gstr "d")).2
        = some TextErr.invalidFormatOption
  ∧ (ParseParams ⟨false, ExecType.execNone, none, [], 0⟩ [gstr "()"] (gstr "d")).1.Params
        = some [] := by decide

/-- C2 amended: ParseParams on the solitary token "()" enters list mode
with that very token, finds no equals character in it, and fails with
InvalidFormatOption, leaving the map as it was. -/
theorem c2_solitary_parens_amended (opt : MOption) (dk : GoStr) :
    ParseParams opt [gstr "()"] dk
      = (⟨opt.Quit, opt.Exec, some (opt.Params.getD []), opt.Crosstab, opt.Watch⟩,
         some TextErr.invalidFormatOption) := rfl

/-- C3: ParseParams fails exactly when some token handled in list mode (as
recorded by the instrumented loop, which registers every token the split
path processes, including the token whose leading paren entered the list)
has no equals character; the only error ever returned is the named
InvalidFormatOption error; in particular the input ["(x)"] fails with it. -/
theorem c3_error_iff (opt : MOption) (ps : List GoStr) (dk : GoStr) :
    ((ParseParams opt ps dk).2.isSome = true ↔
      ∃ t ∈ (parseParamsLoopT dk ps false (opt.Params.getD [])).trace.listTokens,
        splitEq t = none)
  ∧ (∀ e : TextErr, (ParseParams opt ps dk).2 = some e → e = TextErr.invalidFormatOption)
  ∧ (ParseParams opt [gstr "(x)"] dk).2 = some TextErr.invalidFormatOption := by
  have herase := (parseParamsLoopT_erase dk ps false (opt.Params.getD [])).2
  have h2 : (ParseParams opt ps dk).2
      = (parseParamsLoop dk ps false (opt.Params.getD [])).2 := rfl
  refine ⟨?_, fun e _ => by cases e; rfl, rfl⟩
  rw [h2, ← herase]
  constructor
  · exact parseParamsLoopT_err_mem dk ps false _
  · rintro ⟨t, ht, hts⟩
    by_contra hno
    have hnone : (parseParamsLoopT dk ps false (opt.Params.getD [])).err = none := by
      cases he : (parseParamsLoopT dk ps false (opt.Params.getD [])).err with
      | none => rfl
      | some e => rw [he] at hno; exact absurd rfl hno
    exact parseParamsLoopT_ok_tokens dk ps false _ hnone t ht hts

theorem c3_error_iff_witness :
    (ParseParams ⟨false, ExecType.execNone, none, [], 0⟩ [gstr "(x)"] (gstr "d")).2
        = some TextErr.invalidFormatOption
  ∧ (ParseParams ⟨false, ExecType.execNone, none, [], 0⟩ [gstr "(x)"] (gstr "d")).2.isSome
        = true :=
  have h := c3_error_iff ⟨false, ExecType.execNone, none, [], 0⟩ [gstr "(x)"] (gstr "d")
  ⟨h.2.2, h.1.mpr ⟨gstr "(x)", by decide, by decide⟩⟩

/-- C4 counterexample: with default key "a" and tokens ["(a=1)", "x"],
ParseParams returns without error, the free-form branch sets the default
key, and "a" is also among the keys stored from the parenthesized list, so
the default key is not absent from the scanned key/value pairs. -/
theorem c4_default_key_counterexample :
    (parseParamsLoopT (gstr "a") [gstr "(a=1)", gstr "x"] false []).err = none
  ∧ (parseParamsLoopT (gstr "a") [gstr "(a=1)", gstr "x"] false []).trace.defaultSet
      = some (gstr "x")
  ∧ gstr "a" ∈ ((parseParamsLoopT (gstr "a") [gstr "(a=1)", gstr "x"] false
      []).trace.listPairs).map Prod.fst
  ∧ (ParseParams ⟨false, ExecType.execNone, none, [], 0⟩ [gstr "(a=1)", gstr "x"]
      (gstr "a")).2 = none := by decide

/-- C4 amended: after ParseParams returns every stored key is unique (for a
unique-keyed pre-call map), and when the free-form branch set the default
key, the final binding of the default key is that free-form value: any list
pair stored earlier under the same key is overwritten, rather than the
default key being absent from the scanned pairs. -/
theorem c4_unique_keys_amended (opt : MOption) (ps : List GoStr) (dk v : GoStr) :
    ((mapKeys (opt.Params.getD [])).Nodup →
      (mapKeys (((ParseParams opt ps dk).1.Params).getD [])).Nodup)
  ∧ ((parseParamsLoopT dk ps false (opt.Params.getD [])).trace.defaultSet = some v →
      mapLookup (parseParamsLoopT dk ps false (opt.Params.getD [])).params dk
        = some v) :=
  ⟨fun h => parseParamsLoop_nodup dk ps false _ h,
   fun h => parseParamsLoopT_defaultSet dk ps false _ v h⟩

theorem c4_unique_keys_amended_witness :
    (mapKeys (((ParseParams ⟨false, ExecType.execNone, none, [], 0⟩
        [gstr "(a=1)", gstr "x"] (gstr "a")).1.Params).getD [])).Nodup
  ∧ mapLookup (parseParamsLoopT (gstr "a") [gstr "(a=1)", gstr "x"] false []).params
      (gstr "a") = some (gstr "x") :=
  have h := c4_unique_keys_amended ⟨false, ExecType.execNone, none, [], 0⟩
    [gstr "(a=1)", gstr "x"] (gstr "a") (gstr "x")
  ⟨h.1 (by decide), h.2 (by decide)⟩

/-- C5: a list-mode token whose last character is a right paren leaves list
mode, and scanning of the remaining tokens restarts in the initial "not
inside a list" state: a following "(b=2)" opens a second list yielding both
pairs, while a following plain token triggers the free-form branch and
sends the joined tail to the default key. -/
theorem c5_list_close_reenters (dk t : GoStr) (rest : List GoStr) (m : GoMap)
    (lr : GoStr × GoStr) (hs : splitEq t = some lr) (hcl : t.getLast? = some ')') :
    parseParamsLoop dk (t :: rest) true m
      = parseParamsLoop dk rest false
          (mapInsert m (trimLeftParen lr.1) (trimRightParen lr.2))
  ∧ parseParamsLoop (gstr "d") [gstr "(a=1)", gstr "(b=2)"] false []
      = ([(gstr "a", gstr "1"), (gstr "b", gstr "2")], none)
  ∧ parseParamsLoop (gstr "d") [gstr "(a=1)", gstr "x", gstr "y"] false []
      = ([(gstr "a", gstr "1"), (gstr "d", gstr "x y")], none) := by
  refine ⟨?_, by decide, by decide⟩
  rw [parseParamsLoop_list_step dk t rest true m lr (Or.inl rfl) hs]
  have hx : exitFO true t = false := by simp [exitFO, hcl]
  rw [hx]

theorem c5_list_close_reenters_witness :
    parseParamsLoop (gstr "d") [gstr "(k=v)", gstr "rest"] true []
      = parseParamsLoop (gstr "d") [gstr "rest"] false
          (mapInsert [] (trimLeftParen (gstr "(k")) (trimRightParen (gstr "v)"))) :=
  (c5_list_close_reenters (gstr "d") (gstr "(k=v)") [gstr "rest"] []
    (gstr "(k", gstr "v)") (by decide) (by decide)).1

/-- C6 counterexample: on the list token "((a=1)" the left part of the
split is "((a"; storing it with a single leading paren stripped would give
the key "(a", but the code trims every leading paren and stores "a". -/
theorem c6_trim_counterexample :
    mapLookup (parseParamsLoop (gstr "d") [gstr "((a=1)"] false []).1 (gstr "(a")
        = none
  ∧ mapLookup (parseParamsLoop (gstr "d") [gstr "((a=1)"] false []).1 (gstr "a")
        = some (gstr "1")
  ∧ (parseParamsLoop (gstr "d") [gstr "((a=1)"] false []).2 = none := by decide

/-- C6 amended: each token handled in list mode is split at the first
equals character (the left part holds no equals); the stored key is the
left part with every leading left paren stripped, the stored value is the
right part with every trailing right paren stripped, and a repeated key
keeps the later value. -/
theorem c6_split_trim_amended (dk t : GoStr) (rest : List GoStr) (fo : Bool)
    (m : GoMap) (lr : GoStr × GoStr) (hfo : fo = true ∨ t.head? = some '(')
    (hs : splitEq t = some lr) :
    (parseParamsLoop dk (t :: rest) fo m
      = parseParamsLoop dk rest (exitFO true t)
          (mapInsert m (lr.1.dropWhile (fun c => c = '('))
            ((lr.2.reverse.dropWhile (fun c => c = ')')).reverse)))
  ∧ (t = lr.1 ++ '=' :: lr.2 ∧ '=' ∉ lr.1)
  ∧ parseParamsLoop (gstr "d") [gstr "(a=1", gstr "a=2)"] false []
      = ([(gstr "a", gstr "2")], none) :=
  ⟨parseParamsLoop_list_step dk t rest fo m lr hfo hs,
   splitEq_some t lr hs, by decide⟩

theorem c6_split_trim_amended_witness :
    parseParamsLoop (gstr "d") [gstr "((a=1)"] false []
      = parseParamsLoop (gstr "d") [] (exitFO true (gstr "((a=1)"))
          (mapInsert [] ((gstr "((a").dropWhile (fun c => c = '('))
            (((gstr "1)").reverse.dropWhile (fun c => c = ')')).reverse)) :=
  (c6_split_trim_amended (gstr "d") (gstr "((a=1)") [] false []
    (gstr "((a", gstr "1)") (Or.inr (by decide)) (by decide)).1

/-- C7: the tokens ["(a=1", "b=2)"] yield exactly the pairs a to 1 and b
to 2 with no error, for any default key and a fresh Option with nil map,
and the trace shows the default key was never assigned. -/
theorem c7_two_token_list (dk : GoStr) (opt : MOption) :
    (opt.Params = none →
      ParseParams opt [gstr "(a=1", gstr "b=2)"] dk
        = (⟨opt.Quit, opt.Exec,
            some [(gstr "a", gstr "1"), (gstr "b", gstr "2")],
            opt.Crosstab, opt.Watch⟩, none))
  ∧ (parseParamsLoopT dk [gstr "(a=1", gstr "b=2)"] false []).trace
      = ⟨[gstr "(a=1", gstr "b=2)"],
         [(gstr "a", gstr "1"), (gstr "b", gstr "2")], none⟩ := by
  constructor
  · intro h
    obtain ⟨q, ex, P, c, w⟩ := opt
    replace h : P = none := h
    subst h
    rfl
  · rfl

theorem c7_two_token_list_witness :
    ParseParams ⟨false, ExecType.execNone, none, [], 0⟩
        [gstr "(a=1", gstr "b=2)"] (gstr "d")
      = (⟨false, ExecType.execNone,
          some [(gstr "a", gstr "1"), (gstr "b", gstr "2")], [], 0⟩, none) :=
  (c7_two_token_list (gstr "d") ⟨false, ExecType.execNone, none, [], 0⟩).1 rfl

/-- C8 counterexample: with tokens ["(a=1", "a=2", "x"] the pair a=1 is
scanned before the offending token "x", yet after the failure the map
binds a to 2: the earlier scanned pair is no longer present, because a
later scanned pair overwrote it. -/
theorem c8_overwrite_counterexample :
    (parseParamsLoopT (gstr "k") [gstr "(a=1", gstr "a=2", gstr "x"] false []).err
        = some TextErr.invalidFormatOption
  ∧ (gstr "a", gstr "1") ∈ (parseParamsLoopT (gstr "k")
      [gstr "(a=1", gstr "a=2", gstr "x"] false []).trace.listPairs
  ∧ mapLookup (parseParamsLoopT (gstr "k")
      [gstr "(a=1", gstr "a=2", gstr "x"] false []).params (gstr "a")
        = some (gstr "2")
  ∧ (gstr "a", gstr "1") ∉ (parseParamsLoopT (gstr "k")
      [gstr "(a=1", gstr "a=2", gstr "x"] false []).params := by decide

/-- C8 amended: on failure the return is immediate, so tokens after the
offending one change nothing; and no rollback happens: the failing map is
exactly the pre-call map with every scanned pair applied in order, so every
scanned pair whose key has no later scanned occurrence is still present. -/
theorem c8_no_rollback_amended (dk : GoStr) (ps extra : List GoStr) (fo : Bool)
    (m : GoMap) :
    ((parseParamsLoop dk ps fo m).2.isSome = true →
      parseParamsLoop dk (ps ++ extra) fo m = parseParamsLoop dk ps fo m)
  ∧ ((parseParamsLoopT dk ps fo m).err.isSome = true →
      (parseParamsLoopT dk ps fo m).params
        = ((parseParamsLoopT dk ps fo m).trace.listPairs).foldl insKV m)
  ∧ (∀ (l1 l2 : List (GoStr × GoStr)) (k v : GoStr),
      (parseParamsLoopT dk ps fo m).err.isSome = true →
      (parseParamsLoopT dk ps fo m).trace.listPairs = l1 ++ (k, v) :: l2 →
      k ∉ l2.map Prod.fst →
      mapLookup (parseParamsLoopT dk ps fo m).params k = some v) := by
  refine ⟨parseParamsLoop_err_append dk extra ps fo m,
    parseParamsLoopT_err_foldl dk ps fo m, ?_⟩
  intro l1 l2 k v herr hpairs hnm
  rw [parseParamsLoopT_err_foldl dk ps fo m herr, hpairs]
  exact mapLookup_foldl_insKV_last l1 l2 m k v hnm

theorem c8_no_rollback_amended_witness :
    parseParamsLoop (gstr "k")
        ([gstr "(a=1", gstr "a=2", gstr "x"] ++ [gstr "later"]) false []
      = parseParamsLoop (gstr "k") [gstr "(a=1", gstr "a=2", gstr "x"] false []
  ∧ mapLookup (parseParamsLoopT (gstr "k")
      [gstr "(a=1", gstr "a=2", gstr "x"] false []).params (gstr "a")
        = some (gstr "2") :=
  have h := c8_no_rollback_amended (gstr "k") [gstr "(a=1", gstr "a=2", gstr "x"]
    [gstr "later"] false []
  ⟨h.1 (by decide),
   h.2.2 [(gstr "a", gstr "1")] [] (gstr "a") (gstr "2")
     (by decide) (by decide) (by decide)⟩

/-- C9: GetOptional forwards a decoder error as (false, empty, err); on a
decoded value beginning with a dash it returns true and the value without
its first character only (a single dash stripped), otherwise false and the
value unchanged; in particular "-verbose" gives (true, "verbose"),
"verbose" gives (false, "verbose") and "--verbose" gives
(true, "-verbose"). -/
theorem c9_get_optional (ε : Type) (e : ε) (v : GoStr) :
    GetOptional ε v (some e) = (false, [], some e)
  ∧ (0 < v.length → v.head? = some '-' → GetOptional ε v none = (true, v.tail, none))
  ∧ (¬ (0 < v.length ∧ v.head? = some '-') → GetOptional ε v none = (false, v, none))
  ∧ GetOptional ε (gstr "-verbose") none = (true, gstr "verbose", none)
  ∧ GetOptional ε (gstr "verbose") none = (false, gstr "verbose", none)
  ∧ GetOptional ε (gstr "--verbose") none = (true, gstr "-verbose", none) := by
  refine ⟨rfl, ?_, ?_, ?_, ?_, ?_⟩
  · intro h1 h2
    show (if 0 < v.length ∧ v.head? = some '-' then ((true : Bool), v.tail, (none : Option ε))
      else ((false : Bool), v, (none : Option ε))) = ((true : Bool), v.tail, (none : Option ε))
    rw [if_pos ⟨h1, h2⟩]
  · intro h
    show (if 0 < v.length ∧ v.head? = some '-' then ((true : Bool), v.tail, (none : Option ε))
      else ((false : Bool), v, (none : Option ε))) = ((false : Bool), v, (none : Option ε))
    rw [if_neg h]
  · show (if 0 < (gstr "-verbose").length ∧ (gstr "-verbose").head? = some '-' then
        ((true : Bool), (gstr "-verbose").tail, (none : Option ε))
      else ((false : Bool), gstr "-verbose", (none : Option ε))) = _
    rw [if_pos (by decide)]
    exact rfl
  · show (if 0 < (gstr "verbose").length ∧ (gstr "verbose").head? = some '-' then
        ((true : Bool), (gstr "verbose").tail, (none : Option ε))
      else ((false : Bool), gstr "verbose", (none : Option ε))) = _
    rw [if_neg (by decide)]
  · show (if 0 < (gstr "--verbose").length ∧ (gstr "--verbose").head? = some '-' then
        ((true : Bool), (gstr "--verbose").tail, (none : Option ε))
      else ((false : Bool), gstr "--verbose", (none : Option ε))) = _
    rw [if_pos (by decide)]
    exact rfl

theorem c9_get_optional_witness :
    GetOptional Unit (gstr "-x") (some ()) = (false, [], some ())
  ∧ GetOptional Unit (gstr "-x") none = (true, gstr "x", none) :=
  have h := c9_get_optional Unit () (gstr "-x")
  ⟨h.1, h.2.1 (by decide) (by decide)⟩

/-- C10: ParseParams mutates only the Params field: Quit, Exec, Crosstab
and Watch are returned unchanged, Params is non-nil afterwards (a nil map
is replaced by a fresh empty one even on an empty token sequence), and a
pre-call entry survives unless its key is the default key or one of the
keys scanned from a parenthesized list. -/
theorem c10_frame (opt : MOption) (ps : List GoStr) (dk : GoStr) :
    ((ParseParams opt ps dk).1.Quit = opt.Quit
  ∧ (ParseParams opt ps dk).1.Exec = opt.Exec
  ∧ (ParseParams opt ps dk).1.Crosstab = opt.Crosstab
  ∧ (ParseParams opt ps dk).1.Watch = opt.Watch
  ∧ (ParseParams opt ps dk).1.Params.isSome = true)
  ∧ (opt.Params = none → (ParseParams opt [] dk).1.Params = some [])
  ∧ (∀ k v : GoStr, k ≠ dk →
      k ∉ ((parseParamsLoopT dk ps false
        (opt.Params.getD [])).trace.listPairs).map Prod.fst →
      mapLookup (opt.Params.getD []) k = some v →
      mapLookup ((ParseParams opt ps dk).1.Params.getD []) k = some v) := by
  refine ⟨⟨rfl, rfl, rfl, rfl, rfl⟩, ?_, ?_⟩
  · intro h
    obtain ⟨q, ex, P, c, w⟩ := opt
    replace h : P = none := h
    subst h
    rfl
  · intro k v hk hnm hl
    have hp := parseParamsLoopT_preserve dk k hk ps false (opt.Params.getD []) hnm
    have he := (parseParamsLoopT_erase dk ps false (opt.Params.getD [])).1
    show mapLookup (parseParamsLoop dk ps false (opt.Params.getD [])).1 k = some v
    rw [← he, hp]
    exact hl

theorem c10_frame_witness :
    (ParseParams ⟨true, ExecType.execWatch, none, [gstr "c"], 5⟩ [] (gstr "d")).1.Params
        = some []
  ∧ mapLookup ((ParseParams ⟨false, ExecType.execNone, some [(gstr "z", gstr "9")],
        [], 0⟩ [gstr "(a=1)"] (gstr "p")).1.Params.getD []) (gstr "z")
        = some (gstr "9") :=
  have h1 := c10_frame ⟨true, ExecType.execWatch, none, [gstr "c"], 5⟩ [] (gstr "d")
  have h2 := c10_frame ⟨false, ExecType.execNone, some [(gstr "z", gstr "9")], [], 0⟩
    [gstr "(a=1)"] (gstr "p")
  ⟨h1.2.1 rfl,
   h2.2.2 (gstr "z") (gstr "9") (by decide) (by decide) (by decide)⟩

end Metacmd
